import Mathlib

/-!
Verification of the seats_data_analysis pipeline (src/main.py) against its
natural-language specification.

The embedding models:
- `Reservation`     : one CSV row with the named fields the program reads.
- `report_filter`   : SeatDataReader.report_filter (line 14-15).
- `Cache`           : the IDCache dict as an association list from patron-type
                      strings to lists of cached strings, in insertion order
                      (Python dicts preserve insertion order).
- `includes`, `patron_type`, `bucketAppend` : IDCache.includes (33-36),
  IDCache.patron_type (38-41), and the `self[patron_type].append(...)`
  defaultdict update (line 66).
- `dumpJson` / `loadJson` / `dumpload` : IDCache._dump (43-45), _load (47-50)
  and _dumpload (74-77), with the persisted file modelled as a JSON value.
- `build` / `buildLoop` : IDCache.build (52-72); the external
  `IDCache.get_patron_type` call made inside the loop is abstracted as a
  parameter `resolve : String → Except ε String` (a fault `ε` models an
  exception escaping the call), and every persisted snapshot is recorded in
  order in the `dumps` field of the outcome.
- `build_query` / `get_patron_type` : IDCache._build_query (90-96, modelled by
  its ldapsearch filter string, the only part that varies) and
  IDCache.get_patron_type (79-88), with `runQuery : String → Option String`
  abstracting IDCache._run_query (98-113): the extracted `pustatus` value, or
  `none` when the response has none (Python `dict.get` returning `None`).
- `zfill`, `_time_key_of_hour`, `_time_key_from_reservation` :
  DayTimeReporter._time_key_from_reservation (179-184).  Python
  `s.split(sep)[0]` is the prefix of `s` up to the first `sep`, embedded as
  `firstField`; `int(...)` on a digit string is embedded as `parseNat`.
- `bumpPatron` : the innermost counter update of DayTimeReporter.run
  (135-139); its key type is `Option String` because Python dicts accept the
  `None` returned by IDCache.patron_type as a key.
- `dict_pop` / `dict_set` / `rename_go` / `rename_days` : the day-renaming
  loop of DayTimeReporter.run (141-143) over dicts whose keys are transiently
  ints and then weekday names, embedded with key type `Nat ⊕ String`.
  `dict.pop(k)` removes the key `k` (on a dict, keys are unique, so removing
  all matching keys of the association list is the same operation).
-/

/-- One reservation row, restricted to the fields src/main.py reads. -/
structure Reservation where
  email : String
  cancelledAt : String
  checkedInAt : String
  location : String
  fromDate : String
  fromTime : String

/-- SeatDataReader.report_filter (line 14-15):
`r['Cancelled At'] != '' or r['Checked In At'] != '' or r['Location'] != 'Test Branch'`. -/
def report_filter (r : Reservation) : Bool :=
  decide (r.cancelledAt ≠ "") || decide (r.checkedInAt ≠ "") ||
    decide (r.location ≠ "Test Branch")

/-- The IDCache dict: patron-type keys to lists of cached strings, in
insertion order. -/
abbrev Cache := List (String × List String)

/-- IDCache.includes (lines 33-36): `any([id in self[k] for k in self.keys()])`. -/
def includes (c : Cache) (id : String) : Bool :=
  c.any (fun kv => decide (id ∈ kv.2))

/-- IDCache.patron_type (lines 38-41): return the first key whose list
contains `id`; falling off the loop returns Python `None`, i.e. `none`. -/
def patron_type (c : Cache) (id : String) : Option String :=
  (c.find? (fun kv => decide (id ∈ kv.2))).map Prod.fst

/-- The defaultdict update `self[patron_type].append(email)` (line 66): append
to the existing bucket, or create the bucket at the end (Python dict insertion
order) when the key is new. -/
def bucketAppend (c : Cache) (k : String) (v : String) : Cache :=
  if c.any (fun kv => decide (kv.1 = k)) then
    c.map (fun kv => if kv.1 = k then (kv.1, kv.2 ++ [v]) else kv)
  else
    c ++ [(k, [v])]

/-- Python `email.split('@')[0]` (line 63): the prefix of the string up to the
first occurrence of the separator. -/
def firstField (sep : Char) (s : String) : String :=
  String.mk (s.toList.takeWhile (fun c => decide (c ≠ sep)))

/-- The bare identifier: the local portion of an email address (line 63). -/
def localPart (email : String) : String :=
  firstField '@' email

/-- A cache state whose bucket keys are pairwise distinct, the invariant of a
Python dict. -/
def nodupKeys (c : Cache) : Prop :=
  (c.map Prod.fst).Nodup

instance (c : Cache) : Decidable (nodupKeys c) := by
  unfold nodupKeys; infer_instance

/-- Shallow JSON values, enough for the id_cache.json file shape. -/
inductive JValue where
  | str (s : String)
  | arr (xs : List JValue)
  | obj (entries : List (String × JValue))

/-- IDCache._dump (lines 43-45): serialize the cache as a JSON object mapping
each classification key to the array of its cached strings. -/
def dumpJson (c : Cache) : JValue :=
  JValue.obj (c.map (fun kv => (kv.1, JValue.arr (kv.2.map JValue.str))))

/-- Decode a JSON array of strings (the value shape _dump writes). -/
def jStrings : List JValue → Option (List String)
  | [] => some []
  | JValue.str s :: rest => (jStrings rest).map (fun l => s :: l)
  | JValue.arr _ :: _ => none
  | JValue.obj _ :: _ => none

/-- Decode the entries of the persisted JSON object back into key/value pairs. -/
def decodeEntries : List (String × JValue) → Option Cache
  | [] => some []
  | (k, JValue.arr xs) :: rest =>
    match jStrings xs, decodeEntries rest with
    | some l, some r => some ((k, l) :: r)
    | _, _ => none
  | (_, JValue.str _) :: _ => none
  | (_, JValue.obj _) :: _ => none

/-- The dict assignment `self[k] = v` done by _load (line 50): overwrite the
value when the key exists, otherwise insert the key at the end. -/
def assocSet (c : Cache) (k : String) (v : List String) : Cache :=
  if c.any (fun kv => decide (kv.1 = k)) then
    c.map (fun kv => if kv.1 = k then (k, v) else kv)
  else
    c ++ [(k, v)]

/-- IDCache._load (lines 47-50): `for k,v in load(f).items(): self[k] = v`,
starting from the in-memory state `init`.  `none` models `json.load` (or the
item shapes) not matching the persisted cache format. -/
def loadJson (init : Cache) (j : JValue) : Option Cache :=
  match j with
  | JValue.obj entries =>
    (decodeEntries entries).map
      (fun l => l.foldl (fun acc kv => assocSet acc kv.1 kv.2) init)
  | JValue.str _ => none
  | JValue.arr _ => none

/-- IDCache._dumpload (lines 74-77): dump, clear, reload.  Loading the object
just dumped always succeeds (proved below), so the `getD` default is never
used. -/
def dumpload (c : Cache) : Cache :=
  (loadJson [] (dumpJson c)).getD []

/-- Mutable state of one IDCache.build invocation: the cache dict, the counter
`c`, the ordered list of snapshots persisted so far, and the number of
directory lookups performed. -/
structure BuildState where
  cache : Cache
  counter : Nat
  dumps : List Cache
  lookups : Nat

/-- The loop of IDCache.build (lines 61-68): for each record passing
report_filter whose email is not yet cached, derive the bare identifier, call
the resolver on it, append the email to the resolver's bucket, and every
`dump_every` additions persist and reload the cache (_dumpload).  A fault of
the resolver stops the loop and is returned together with the state at that
point (the loop body has changed nothing for that record yet). -/
def buildLoop (resolve : String → Except ε String) (dump_every : Nat) :
    List Reservation → BuildState → BuildState × Option ε
  | [], st => (st, none)
  | r :: rest, st =>
    if report_filter r then
      if includes st.cache r.email then
        buildLoop resolve dump_every rest st
      else
        match resolve (localPart r.email) with
        | Except.error e => ({ st with lookups := st.lookups + 1 }, some e)
        | Except.ok pt =>
          let cache2 := bucketAppend st.cache pt r.email
          let c2 := st.counter + 1
          if c2 % dump_every = 0 then
            buildLoop resolve dump_every rest
              { cache := dumpload cache2, counter := c2,
                dumps := st.dumps ++ [cache2], lookups := st.lookups + 1 }
          else
            buildLoop resolve dump_every rest
              { cache := cache2, counter := c2,
                dumps := st.dumps, lookups := st.lookups + 1 }
    else
      buildLoop resolve dump_every rest st

/-- Outcome of IDCache.build: final in-memory cache, all persisted snapshots
in order, number of lookups, and the fault re-raised to the caller (if any). -/
structure BuildOutcome (ε : Type) where
  cache : Cache
  dumps : List Cache
  lookups : Nat
  fault : Option ε

/-- IDCache.build (lines 52-72): run the loop from the initial cache `c0`;
whether the loop faulted or not, the state reached is dumped exactly once at
the end (the `except` handler at 69-71 dumps then re-raises; the normal exit
dumps at line 72), and a fault is propagated, never swallowed. -/
def build (resolve : String → Except ε String) (dump_every : Nat)
    (c0 : Cache) (rs : List Reservation) : BuildOutcome ε :=
  let p := buildLoop resolve dump_every rs
    { cache := c0, counter := 0, dumps := [], lookups := 0 }
  { cache := p.1.cache, dumps := p.1.dumps ++ [p.1.cache],
    lookups := p.1.lookups, fault := p.2 }

/-- IDCache._build_query (lines 90-96), modelled by the ldapsearch filter
string it builds (the only argument that varies): `field=id`, with the fixed
domain appended when the field is `mail`. -/
def build_query (id : String) (field : String) : String :=
  let f := field ++ "=" ++ id
  if field = "mail" then f ++ "@princeton.edu" else f

/-- IDCache.get_patron_type (lines 79-88): primary lookup on `uid`; if the
result is absent, retry on `mail` (with the domain suffix added by
_build_query); if still absent, fall back to "unknown".  `runQuery` abstracts
IDCache._run_query; it is total, so an absent result is a value, never an
error. -/
def get_patron_type (runQuery : String → Option String) (id : String) : String :=
  match runQuery (build_query id "uid") with
  | some pt => pt
  | none =>
    match runQuery (build_query id "mail") with
    | some pt => pt
    | none => "unknown"

/-- Python `str.zfill(w)`: left-pad with zeros to width `w`. -/
def zfill (w : Nat) (s : String) : String :=
  String.mk (List.replicate (w - s.length) '0' ++ s.toList)

/-- The body of DayTimeReporter._time_key_from_reservation (lines 182-184)
once the hour is parsed: decrement an odd hour, then format
`HH:00 - (HH+1):59` with zero-padded two-digit hours. -/
def _time_key_of_hour (hour : Nat) : String :=
  let h := if hour % 2 = 1 then hour - 1 else hour
  zfill 2 (toString h) ++ ":00 - " ++ zfill 2 (toString (h + 1)) ++ ":59"

/-- Python `int(s)` on a plain digit string: `none` models the ValueError on a
non-digit (or empty) string. -/
def digitsToNat : List Char → Nat → Option Nat
  | [], acc => some acc
  | c :: rest, acc =>
    if c.isDigit then digitsToNat rest (10 * acc + (c.toNat - 48)) else none

/-- Parse a nonempty all-digit string as a natural number. -/
def parseNat (s : String) : Option Nat :=
  match s.toList with
  | [] => none
  | c :: rest => digitsToNat (c :: rest) 0

/-- DayTimeReporter._time_key_from_reservation (lines 179-184):
`hour = int(res['From Time'].split(':')[0])`, then the even-hour block label. -/
def _time_key_from_reservation (r : Reservation) : Option String :=
  (parseNat (firstField ':' r.fromTime)).map _time_key_of_hour

/-- The spec's description of the block label: align the hour to the even hour
`e` below it and format `EE:00 - (EE+1):59` with two-digit zero-padded hours. -/
def timeBlockLabel (hour : Nat) : String :=
  let e := hour - hour % 2
  zfill 2 (toString e) ++ ":00 - " ++ zfill 2 (toString (e + 1)) ++ ":59"

/-- The innermost counter update of DayTimeReporter.run (lines 135-139).  The
key type is `Option String` because IDCache.patron_type returns Python `None`
for an uncached identifier and a Python dict accepts `None` as a key: a new
key (even `none`) starts at 1, an existing key is incremented. -/
def bumpPatron (d : List (Option String × Nat)) (pt : Option String) :
    List (Option String × Nat) :=
  if d.any (fun kv => decide (kv.1 = pt)) then
    d.map (fun kv => if kv.1 = pt then (kv.1, kv.2 + 1) else kv)
  else
    d ++ [(pt, 1)]

/-- Keys of the top-level report dict during renaming: weekday ints on the
left, weekday names on the right. -/
abbrev DayKey := Nat ⊕ String

instance : BEq DayKey := instBEqOfDecidableEq

instance : LawfulBEq DayKey := instLawfulBEq

/-- The `self.days` tuple (line 121). -/
def days : List String :=
  ["Monday", "Tuesday", "Wednesday", "Thursday", "Friday", "Saturday", "Sunday"]

/-- Python `dict.pop(k)` without default: `none` models the KeyError when the
key is absent; otherwise return its value and the dict without the key. -/
def dict_pop (d : List (DayKey × V)) (k : DayKey) :
    Option (V × List (DayKey × V)) :=
  match d.find? (fun kv => decide (kv.1 = k)) with
  | none => none
  | some kv => some (kv.2, d.filter (fun kv2 => decide (¬ kv2.1 = k)))

/-- Python `dict[k] = v`: overwrite when present, insert at the end when new. -/
def dict_set (d : List (DayKey × V)) (k : DayKey) (v : V) :
    List (DayKey × V) :=
  if d.any (fun kv => decide (kv.1 = k)) then
    d.map (fun kv => if kv.1 = k then (k, v) else kv)
  else
    d ++ [(k, v)]

/-- One iteration of the renaming loop (lines 142-143):
`day = self.days[i]; self.data[day] = self.data.pop(i)`. -/
def rename_step (d : List (DayKey × V)) (i : Nat) :
    Option (List (DayKey × V)) :=
  match dict_pop d (Sum.inl i) with
  | none => none
  | some pr => some (dict_set pr.2 (Sum.inr (days.getD i "")) pr.1)

/-- The renaming loop over an explicit index list. -/
def rename_go : List Nat → List (DayKey × V) → Option (List (DayKey × V))
  | [], d => some d
  | i :: is, d =>
    match rename_step d i with
    | none => none
    | some d2 => rename_go is d2

/-- The day-renaming step of DayTimeReporter.run (lines 141-143):
`for i in range(0,7): self.data[self.days[i]] = self.data.pop(i)`;
`none` models the KeyError escaping `run`. -/
def rename_days (d : List (DayKey × V)) : Option (List (DayKey × V)) :=
  rename_go (List.range 7) d

/-- A concrete checked-in reservation at a real location (passes the filter). -/
def recFirestone : Reservation :=
  ⟨"abc123@example.edu", "", "2021-02-01T09:20", "Firestone", "2021-02-01", "09:15"⟩

/-- A second concrete included reservation with a different email. -/
def recStokes : Reservation :=
  ⟨"xyz789@example.edu", "", "2021-02-01T09:25", "Stokes", "2021-02-01", "11:30"⟩

/-- A resolver that classifies everything as undergraduate and never faults. -/
def resolveUG : String → Except String String :=
  fun _ => Except.ok "undergraduate"

/-- A resolver whose external call always raises. -/
def resolveBoom : String → Except String String :=
  fun _ => Except.error "boom"

/-! ### Helper lemmas: persistence round trip -/

theorem jStrings_map_str (l : List String) :
    jStrings (l.map JValue.str) = some l := by
  induction l with
  | nil => rfl
  | cons s rest ih => simp [jStrings, ih]

theorem decodeEntries_dumpJson (c : Cache) :
    decodeEntries (c.map (fun kv => (kv.1, JValue.arr (kv.2.map JValue.str)))) =
      some c := by
  induction c with
  | nil => rfl
  | cons kv rest ih =>
    obtain ⟨k, v⟩ := kv
    simp [decodeEntries, jStrings_map_str, ih]

theorem assocSet_of_not_mem (acc : Cache) (k : String) (v : List String)
    (h : k ∉ acc.map Prod.fst) : assocSet acc k v = acc ++ [(k, v)] := by
  have hall : acc.any (fun kv => decide (kv.1 = k)) = false := by
    simp only [List.any_eq_false, decide_eq_true_eq]
    intro kv hkv heq
    exact h (List.mem_map.mpr ⟨kv, hkv, heq⟩)
  simp [assocSet, hall]

theorem foldl_assocSet_append (l : Cache) : ∀ acc : Cache,
    (l.map Prod.fst).Nodup →
    (∀ k ∈ l.map Prod.fst, k ∉ acc.map Prod.fst) →
    l.foldl (fun a kv => assocSet a kv.1 kv.2) acc = acc ++ l := by
  induction l with
  | nil => intro acc _ _; simp
  | cons kv rest ih =>
    intro acc hnd hdisj
    obtain ⟨k, v⟩ := kv
    have hk : k ∉ acc.map Prod.fst := hdisj k (by simp)
    rw [List.map_cons] at hnd
    have hkrest : k ∉ rest.map Prod.fst := (List.nodup_cons.mp hnd).1
    have hnd' : (rest.map Prod.fst).Nodup := (List.nodup_cons.mp hnd).2
    simp only [List.foldl_cons]
    rw [assocSet_of_not_mem acc k v hk,
      ih (acc ++ [(k, v)]) hnd' ?disj]
    · simp
    case disj =>
      intro k' hk'
      simp only [List.map_append, List.mem_append, List.map_cons,
        List.map_nil, List.mem_cons, List.not_mem_nil, or_false] at *
      rintro (h1 | h2)
      · exact hdisj k' (Or.inr hk') h1
      · exact hkrest (h2 ▸ hk')

theorem roundtrip_aux (c : Cache) (h : nodupKeys c) :
    loadJson [] (dumpJson c) = some c := by
  have hfold : c.foldl (fun acc kv => assocSet acc kv.1 kv.2) [] = c := by
    simpa using foldl_assocSet_append c [] h (by simp)
  simp [loadJson, dumpJson, decodeEntries_dumpJson c, hfold]

theorem dumpload_eq (c : Cache) (h : nodupKeys c) : dumpload c = c := by
  simp [dumpload, roundtrip_aux c h]

/-- Helper for C9: when no bucket of the cache contains the identifier,
IDCache.patron_type falls off its loop and returns Python None. -/
theorem patron_type_of_not_includes (c : Cache) (id : String)
    (h : includes c id = false) : patron_type c id = none := by
  have hfind : c.find? (fun kv => decide (id ∈ kv.2)) = none := by
    rw [List.find?_eq_none]
    intro kv hkv
    simp only [includes, List.any_eq_false] at h
    exact h kv hkv
  simp [patron_type, hfind]

/-- C3: IDCache.get_patron_type first looks up the `uid` attribute; when that
returns no classification it retries with the `mail` attribute whose query
string carries the identifier with the fixed `@princeton.edu` suffix appended;
when that is also absent it returns "unknown".  The lookup result is an
`Option`, and `get_patron_type` is a total function on it: an absent result is
a normal value, never an error. -/
theorem get_patron_type_two_stage (runQuery : String → Option String)
    (id : String) :
    (∀ pt, runQuery (build_query id "uid") = some pt →
      get_patron_type runQuery id = pt)
    ∧ (runQuery (build_query id "uid") = none →
        get_patron_type runQuery id =
          (runQuery (build_query id "mail")).getD "unknown")
    ∧ build_query id "uid" = "uid=" ++ id
    ∧ build_query id "mail" = "mail=" ++ id ++ "@princeton.edu" := by
  refine ⟨?_, ?_, ?_, ?_⟩
  · intro pt h
    simp [get_patron_type, h]
  · intro h
    simp only [get_patron_type, h]
    cases hm : runQuery (build_query id "mail") <;> simp [hm]
  · simp [build_query]
  · simp [build_query]

/-- Witness for C3 at a concrete directory with only a mail-alias entry. -/
theorem get_patron_type_two_stage_witness :
    get_patron_type (fun _ => none) "abc123" = "unknown" := by
  have h := (get_patron_type_two_stage (fun _ => none) "abc123").2.1 rfl
  simpa using h

/-- C4: for a start-time field beginning with an integer hour h in 0..23, the
time-block label decrements an odd h to the even hour below it and formats
`EE:00 - (EE+1):59` with zero-padded two-digit hours; hour 13 gives
`12:00 - 13:59`, hour 0 gives `00:00 - 01:59`, hour 23 gives `22:00 - 23:59`. -/
theorem time_block_label_spec :
    (∀ h, h < 24 → _time_key_of_hour h = timeBlockLabel h)
    ∧ (∀ (r : Reservation) (h : Nat),
        parseNat (firstField ':' r.fromTime) = some h →
        _time_key_from_reservation r = some (_time_key_of_hour h))
    ∧ _time_key_from_reservation ⟨"", "", "", "", "", "13:15"⟩ =
        some "12:00 - 13:59"
    ∧ _time_key_from_reservation ⟨"", "", "", "", "", "00:30"⟩ =
        some "00:00 - 01:59"
    ∧ _time_key_from_reservation ⟨"", "", "", "", "", "23:45"⟩ =
        some "22:00 - 23:59" := by
  refine ⟨by decide, ?_, by decide, by decide, by decide⟩
  intro r h hp
  simp [_time_key_from_reservation, hp]

/-- Witness for C4: the label algorithm applied at the odd hour 13. -/
theorem time_block_label_spec_witness :
    _time_key_of_hour 13 = timeBlockLabel 13 :=
  time_block_label_spec.1 13 (by decide)

/-- C5: a record is included iff its cancellation field is non-empty, or its
check-in field is non-empty, or its location is not "Test Branch"; a pending
no-show at the test branch is excluded, a cancelled test-branch record is
included. -/
theorem report_filter_spec :
    (∀ r : Reservation, report_filter r = true ↔
      (r.cancelledAt ≠ "" ∨ r.checkedInAt ≠ "" ∨ r.location ≠ "Test Branch"))
    ∧ report_filter ⟨"a@b.edu", "", "", "Test Branch", "2021-02-01", "09:15"⟩ =
        false
    ∧ report_filter
        ⟨"a@b.edu", "2021-02-01T10:00", "", "Test Branch", "2021-02-01", "09:15"⟩ =
        true := by
  refine ⟨?_, by decide, by decide⟩
  intro r
  simp [report_filter, or_assoc]

/-- Witness for C5: the excluded test-branch record, via the theorem. -/
theorem report_filter_spec_witness :
    report_filter ⟨"a@b.edu", "", "", "Test Branch", "2021-02-01", "09:15"⟩ =
      false :=
  report_filter_spec.2.1

/-- C8: dumping the cache and loading it back into an empty cache reproduces
exactly the same mapping, for every cache state with distinct bucket keys (the
dict invariant), including states whose keys are the strings "null" or
"unknown" that render an absent classification. -/
theorem cache_dump_load_roundtrip (c : Cache) (h : nodupKeys c) :
    loadJson [] (dumpJson c) = some c :=
  roundtrip_aux c h

/-- Witness for C8 on a cache holding a "null" key and an "unknown" key. -/
theorem cache_dump_load_roundtrip_witness :
    loadJson [] (dumpJson
      [("undergraduate", ["abc123@example.edu"]), ("null", ["x@y.edu"]),
        ("unknown", [])]) =
    some [("undergraduate", ["abc123@example.edu"]), ("null", ["x@y.edu"]),
      ("unknown", [])] :=
  cache_dump_load_roundtrip _ (by decide)

/-- C9 counterexample: with a concrete fully-built cache that lacks the
identifier, IDCache.patron_type does not raise on a missing-key access; it is
a total function that returns Python None (`none`), and the aggregation
counter update of DayTimeReporter.run then silently records the count under
the `none` key. -/
theorem patron_type_absent_cex :
    patron_type [("undergraduate", ["abc123@example.edu"])] "zz@example.edu" =
      none
    ∧ bumpPatron []
        (patron_type [("undergraduate", ["abc123@example.edu"])]
          "zz@example.edu") =
      [(none, 1)] := by
  decide

/-- C9 amended: whenever the identifier is absent from every bucket,
patron_type returns the absent value None without raising, and the aggregation
step silently produces a count of 1 under the None key. -/
theorem patron_type_absent_silent (c : Cache) (id : String)
    (h : includes c id = false) :
    patron_type c id = none ∧ bumpPatron [] (patron_type c id) = [(none, 1)] := by
  have hp := patron_type_of_not_includes c id h
  refine ⟨hp, ?_⟩
  rw [hp]
  decide

/-- Witness for the amended C9 at a concrete cache and absent identifier. -/
theorem patron_type_absent_silent_witness :
    patron_type [("graduate", ["qq@example.edu"])] "rr@example.edu" = none
    ∧ bumpPatron []
        (patron_type [("graduate", ["qq@example.edu"])] "rr@example.edu") =
      [(none, 1)] :=
  patron_type_absent_silent [("graduate", ["qq@example.edu"])] "rr@example.edu"
    (by decide)

/-! ### Helper lemmas: bucketAppend -/

theorem includes_bucketAppend (c : Cache) (k v x : String) :
    includes (bucketAppend c k v) x = true ↔
      (includes c x = true ∨ x = v) := by
  unfold bucketAppend
  by_cases hany : c.any (fun kv => decide (kv.1 = k)) = true
  · rw [if_pos hany]
    simp only [List.any_eq_true, decide_eq_true_eq] at hany
    simp only [includes, List.any_eq_true, decide_eq_true_eq, List.mem_map]
    constructor
    · rintro ⟨kv, ⟨kv0, hkv0, rfl⟩, hx⟩
      by_cases hk : kv0.1 = k
      · rw [if_pos hk] at hx
        simp only [List.mem_append, List.mem_singleton] at hx
        rcases hx with hx | hx
        · exact Or.inl ⟨kv0, hkv0, hx⟩
        · exact Or.inr hx
      · rw [if_neg hk] at hx
        exact Or.inl ⟨kv0, hkv0, hx⟩
    · rintro (⟨kv0, hkv0, hx⟩ | rfl)
      · refine ⟨if kv0.1 = k then (kv0.1, kv0.2 ++ [v]) else kv0,
          ⟨kv0, hkv0, rfl⟩, ?_⟩
        by_cases hk : kv0.1 = k
        · rw [if_pos hk]
          exact List.mem_append_left _ hx
        · rw [if_neg hk]
          exact hx
      · obtain ⟨kv0, hkv0, hk⟩ := hany
        refine ⟨(kv0.1, kv0.2 ++ [x]), ⟨kv0, hkv0, by rw [if_pos hk]⟩, by simp⟩
  · rw [if_neg hany]
    simp only [includes, List.any_eq_true, decide_eq_true_eq, List.mem_append,
      List.mem_singleton]
    constructor
    · rintro ⟨kv, hkv | hkv, hx⟩
      · exact Or.inl ⟨kv, hkv, hx⟩
      · rw [hkv] at hx
        simp only [List.mem_singleton] at hx
        exact Or.inr hx
    · rintro (⟨kv, hkv, hx⟩ | rfl)
      · exact ⟨kv, Or.inl hkv, hx⟩
      · exact ⟨(k, [x]), Or.inr rfl, by simp⟩

theorem nodupKeys_bucketAppend (c : Cache) (k v : String) (h : nodupKeys c) :
    nodupKeys (bucketAppend c k v) := by
  unfold bucketAppend
  by_cases hany : c.any (fun kv => decide (kv.1 = k)) = true
  · rw [if_pos hany]
    unfold nodupKeys at *
    have hmap :
        (c.map (fun kv => if kv.1 = k then (kv.1, kv.2 ++ [v]) else kv)).map
            Prod.fst =
          c.map Prod.fst := by
      rw [List.map_map]
      apply List.map_congr_left
      intro kv _
      by_cases hk : kv.1 = k <;> simp [hk]
    rw [hmap]
    exact h
  · rw [if_neg hany]
    rw [Bool.not_eq_true, List.any_eq_false] at hany
    unfold nodupKeys at *
    rw [List.map_append, List.nodup_append]
    refine ⟨h, by simp, ?_⟩
    intro a ha hb
    simp only [List.map_cons, List.map_nil, List.mem_singleton] at hb
    subst hb
    obtain ⟨kv0, hkv0, hfst⟩ := List.mem_map.mp ha
    have := hany kv0 hkv0
    simp only [decide_eq_true_eq] at this
    exact this hfst

/-! ### Helper lemmas: the build loop -/

theorem buildLoop_nodup (resolve : String → Except ε String) (d : Nat)
    (rs : List Reservation) : ∀ st : BuildState, nodupKeys st.cache →
    nodupKeys (buildLoop resolve d rs st).1.cache := by
  induction rs with
  | nil =>
    intro st h
    simpa [buildLoop] using h
  | cons r rest ih =>
    intro st hnd
    cases hrf : report_filter r with
    | false =>
      simp only [buildLoop, hrf, Bool.false_eq_true, if_false]
      exact ih st hnd
    | true =>
      cases hinc : includes st.cache r.email with
      | true =>
        simp only [buildLoop, hrf, hinc, if_true]
        exact ih st hnd
      | false =>
        cases hres : resolve (localPart r.email) with
        | error e =>
          simp only [buildLoop, hrf, hinc, hres, Bool.false_eq_true, if_false,
            if_true]
          exact hnd
        | ok pt =>
          have hnd2 : nodupKeys (bucketAppend st.cache pt r.email) :=
            nodupKeys_bucketAppend _ _ _ hnd
          by_cases hdump : (st.counter + 1) % d = 0
          · simp only [buildLoop, hrf, hinc, hres, Bool.false_eq_true, if_false,
              if_true, hdump, if_pos]
            rw [dumpload_eq _ hnd2]
            exact ih _ hnd2
          · simp only [buildLoop, hrf, hinc, hres, Bool.false_eq_true, if_false,
              if_true, hdump]
            exact ih _ hnd2

theorem buildLoop_mono (resolve : String → Except ε String) (d : Nat)
    (rs : List Reservation) : ∀ st : BuildState, nodupKeys st.cache →
    ∀ x, includes st.cache x = true →
    includes (buildLoop resolve d rs st).1.cache x = true := by
  induction rs with
  | nil =>
    intro st _ x hx
    simpa [buildLoop] using hx
  | cons r rest ih =>
    intro st hnd x hx
    cases hrf : report_filter r with
    | false =>
      simp only [buildLoop, hrf, Bool.false_eq_true, if_false]
      exact ih st hnd x hx
    | true =>
      cases hinc : includes st.cache r.email with
      | true =>
        simp only [buildLoop, hrf, hinc, if_true]
        exact ih st hnd x hx
      | false =>
        cases hres : resolve (localPart r.email) with
        | error e =>
          simp only [buildLoop, hrf, hinc, hres, Bool.false_eq_true, if_false,
            if_true]
          exact hx
        | ok pt =>
          have hnd2 : nodupKeys (bucketAppend st.cache pt r.email) :=
            nodupKeys_bucketAppend _ _ _ hnd
          have hx2 : includes (bucketAppend st.cache pt r.email) x = true :=
            (includes_bucketAppend _ _ _ _).mpr (Or.inl hx)
          by_cases hdump : (st.counter + 1) % d = 0
          · simp only [buildLoop, hrf, hinc, hres, Bool.false_eq_true, if_false,
              if_true, hdump, if_pos]
            rw [dumpload_eq _ hnd2]
            exact ih _ hnd2 x hx2
          · simp only [buildLoop, hrf, hinc, hres, Bool.false_eq_true, if_false,
              if_true, hdump]
            exact ih _ hnd2 x hx2

theorem buildLoop_source (resolve : String → Except ε String) (d : Nat)
    (rs : List Reservation) : ∀ st : BuildState, nodupKeys st.cache →
    ∀ x, includes (buildLoop resolve d rs st).1.cache x = true →
    includes st.cache x = true ∨ ∃ r ∈ rs, x = r.email := by
  induction rs with
  | nil =>
    intro st _ x hx
    exact Or.inl (by simpa [buildLoop] using hx)
  | cons r rest ih =>
    intro st hnd x hx
    cases hrf : report_filter r with
    | false =>
      simp only [buildLoop, hrf, Bool.false_eq_true, if_false] at hx
      rcases ih st hnd x hx with h | ⟨r', hr', he⟩
      · exact Or.inl h
      · exact Or.inr ⟨r', List.mem_cons_of_mem _ hr', he⟩
    | true =>
      cases hinc : includes st.cache r.email with
      | true =>
        simp only [buildLoop, hrf, hinc, if_true] at hx
        rcases ih st hnd x hx with h | ⟨r', hr', he⟩
        · exact Or.inl h
        · exact Or.inr ⟨r', List.mem_cons_of_mem _ hr', he⟩
      | false =>
        cases hres : resolve (localPart r.email) with
        | error e =>
          simp only [buildLoop, hrf, hinc, hres, Bool.false_eq_true, if_false,
            if_true] at hx
          exact Or.inl hx
        | ok pt =>
          have hnd2 : nodupKeys (bucketAppend st.cache pt r.email) :=
            nodupKeys_bucketAppend _ _ _ hnd
          have step2 : ∀ dumps2 : List Cache,
              ∀ hx2 : includes (buildLoop resolve d rest
                { cache := bucketAppend st.cache pt r.email,
                  counter := st.counter + 1, dumps := dumps2,
                  lookups := st.lookups + 1 }).1.cache x = true,
              includes st.cache x = true ∨ ∃ r' ∈ r :: rest, x = r'.email := by
            intro dumps2 hx2
            rcases ih _ hnd2 x hx2 with h | ⟨r', hr', he⟩
            · rcases (includes_bucketAppend _ _ _ _).mp h with h' | rfl
              · exact Or.inl h'
              · exact Or.inr ⟨r, List.mem_cons_self _ _, rfl⟩
            · exact Or.inr ⟨r', List.mem_cons_of_mem _ hr', he⟩
          by_cases hdump : (st.counter + 1) % d = 0
          · simp only [buildLoop, hrf, hinc, hres, Bool.false_eq_true, if_false,
              if_true, hdump, if_pos] at hx
            rw [dumpload_eq _ hnd2] at hx
            exact step2 _ hx
          · simp only [buildLoop, hrf, hinc, hres, Bool.false_eq_true, if_false,
              if_true, hdump] at hx
            exact step2 _ hx

theorem buildLoop_complete (resolve : String → Except ε String) (d : Nat)
    (rs : List Reservation) : ∀ st : BuildState, nodupKeys st.cache →
    (buildLoop resolve d rs st).2 = none →
    ∀ r ∈ rs, report_filter r = true →
    includes (buildLoop resolve d rs st).1.cache r.email = true := by
  induction rs with
  | nil =>
    intro st _ _ r hr
    exact absurd hr (List.not_mem_nil r)
  | cons r rest ih =>
    intro st hnd hok r' hr' hrf'
    cases hrf : report_filter r with
    | false =>
      simp only [buildLoop, hrf, Bool.false_eq_true, if_false] at hok ⊢
      rcases List.mem_cons.mp hr' with rfl | hr'
      · exact absurd hrf' (by simp [hrf])
      · exact ih st hnd hok r' hr' hrf'
    | true =>
      cases hinc : includes st.cache r.email with
      | true =>
        simp only [buildLoop, hrf, hinc, if_true] at hok ⊢
        rcases List.mem_cons.mp hr' with rfl | hr'
        · exact buildLoop_mono resolve d rest st hnd r'.email hinc
        · exact ih st hnd hok r' hr' hrf'
      | false =>
        cases hres : resolve (localPart r.email) with
        | error e =>
          simp only [buildLoop, hrf, hinc, hres, Bool.false_eq_true, if_false,
            if_true] at hok
          exact absurd hok (by simp)
        | ok pt =>
          have hnd2 : nodupKeys (bucketAppend st.cache pt r.email) :=
            nodupKeys_bucketAppend _ _ _ hnd
          have hself : includes (bucketAppend st.cache pt r.email) r.email =
              true :=
            (includes_bucketAppend _ _ _ _).mpr (Or.inr rfl)
          have step : ∀ dumps2 : List Cache,
              (buildLoop resolve d rest
                { cache := bucketAppend st.cache pt r.email,
                  counter := st.counter + 1, dumps := dumps2,
                  lookups := st.lookups + 1 }).2 = none →
              includes (buildLoop resolve d rest
                { cache := bucketAppend st.cache pt r.email,
                  counter := st.counter + 1, dumps := dumps2,
                  lookups := st.lookups + 1 }).1.cache r'.email = true := by
            intro dumps2 hok2
            rcases List.mem_cons.mp hr' with rfl | hr'
            · exact buildLoop_mono resolve d rest _ hnd2 r'.email hself
            · exact ih _ hnd2 hok2 r' hr' hrf'
          by_cases hdump : (st.counter + 1) % d = 0
          · simp only [buildLoop, hrf, hinc, hres, Bool.false_eq_true, if_false,
              if_true, hdump, if_pos] at hok ⊢
            rw [dumpload_eq _ hnd2] at hok ⊢
            exact step _ hok
          · simp only [buildLoop, hrf, hinc, hres, Bool.false_eq_true, if_false,
              if_true, hdump] at hok ⊢
            exact step _ hok

theorem buildLoop_fault_source (resolve : String → Except ε String) (d : Nat)
    (rs : List Reservation) : ∀ st : BuildState, ∀ e : ε,
    (buildLoop resolve d rs st).2 = some e →
    ∃ id, resolve id = Except.error e := by
  induction rs with
  | nil =>
    intro st e he
    simp [buildLoop] at he
  | cons r rest ih =>
    intro st e he
    cases hrf : report_filter r with
    | false =>
      simp only [buildLoop, hrf, Bool.false_eq_true, if_false] at he
      exact ih st e he
    | true =>
      cases hinc : includes st.cache r.email with
      | true =>
        simp only [buildLoop, hrf, hinc, if_true] at he
        exact ih st e he
      | false =>
        cases hres : resolve (localPart r.email) with
        | error e' =>
          simp only [buildLoop, hrf, hinc, hres, Bool.false_eq_true, if_false,
            if_true, Option.some_inj] at he
          exact ⟨localPart r.email, by rw [hres, he]⟩
        | ok pt =>
          by_cases hdump : (st.counter + 1) % d = 0
          · simp only [buildLoop, hrf, hinc, hres, Bool.false_eq_true, if_false,
              if_true, hdump, if_pos] at he
            exact ih _ e he
          · simp only [buildLoop, hrf, hinc, hres, Bool.false_eq_true, if_false,
              if_true, hdump] at he
            exact ih _ e he

theorem buildLoop_fault_none (resolve : String → Except ε String) (d : Nat)
    (rs : List Reservation) (hres : ∀ id, ∃ pt, resolve id = Except.ok pt) :
    ∀ st : BuildState, (buildLoop resolve d rs st).2 = none := by
  induction rs with
  | nil =>
    intro st
    simp [buildLoop]
  | cons r rest ih =>
    intro st
    cases hrf : report_filter r with
    | false =>
      simp only [buildLoop, hrf, Bool.false_eq_true, if_false]
      exact ih st
    | true =>
      cases hinc : includes st.cache r.email with
      | true =>
        simp only [buildLoop, hrf, hinc, if_true]
        exact ih st
      | false =>
        obtain ⟨pt, hpt⟩ := hres (localPart r.email)
        by_cases hdump : (st.counter + 1) % d = 0
        · simp only [buildLoop, hrf, hinc, hpt, Bool.false_eq_true, if_false,
            if_true, hdump, if_pos]
          exact ih _
        · simp only [buildLoop, hrf, hinc, hpt, Bool.false_eq_true, if_false,
            if_true, hdump]
          exact ih _

theorem buildLoop_no_lookup (resolve : String → Except ε String) (d : Nat)
    (rs : List Reservation) : ∀ st : BuildState,
    (∀ r ∈ rs, report_filter r = true → includes st.cache r.email = true) →
    buildLoop resolve d rs st = (st, none) := by
  induction rs with
  | nil =>
    intro st _
    rfl
  | cons r rest ih =>
    intro st hall
    cases hrf : report_filter r with
    | false =>
      simp only [buildLoop, hrf, Bool.false_eq_true, if_false]
      exact ih st (fun r' hr' hrf' => hall r' (List.mem_cons_of_mem _ hr') hrf')
    | true =>
      have hinc : includes st.cache r.email = true :=
        hall r (List.mem_cons_self _ _) hrf
      simp only [buildLoop, hrf, hinc, if_true]
      exact ih st (fun r' hr' hrf' => hall r' (List.mem_cons_of_mem _ hr') hrf')

theorem buildLoop_d_indep (resolve : String → Except ε String)
    (rs : List Reservation) : ∀ (d1 d2 : Nat) (st1 st2 : BuildState),
    st1.cache = st2.cache → st1.lookups = st2.lookups → nodupKeys st1.cache →
    (buildLoop resolve d1 rs st1).1.cache =
      (buildLoop resolve d2 rs st2).1.cache
    ∧ (buildLoop resolve d1 rs st1).1.lookups =
        (buildLoop resolve d2 rs st2).1.lookups
    ∧ (buildLoop resolve d1 rs st1).2 = (buildLoop resolve d2 rs st2).2 := by
  induction rs with
  | nil =>
    intro d1 d2 st1 st2 hc hl _
    simpa [buildLoop] using ⟨hc, hl⟩
  | cons r rest ih =>
    intro d1 d2 st1 st2 hc hl hnd
    cases hrf : report_filter r with
    | false =>
      simp only [buildLoop, hrf, Bool.false_eq_true, if_false]
      exact ih d1 d2 st1 st2 hc hl hnd
    | true =>
      cases hinc : includes st1.cache r.email with
      | true =>
        have hinc2 : includes st2.cache r.email = true := by
          rw [← hc]; exact hinc
        simp only [buildLoop, hrf, hinc, hinc2, if_true]
        exact ih d1 d2 st1 st2 hc hl hnd
      | false =>
        have hinc2 : includes st2.cache r.email = false := by
          rw [← hc]; exact hinc
        cases hres : resolve (localPart r.email) with
        | error e =>
          simp only [buildLoop, hrf, hinc, hinc2, hres, Bool.false_eq_true,
            if_false, if_true]
          exact ⟨hc, by simp [hl], by simp⟩
        | ok pt =>
          have hnd2 : nodupKeys (bucketAppend st1.cache pt r.email) :=
            nodupKeys_bucketAppend _ _ _ hnd
          have hceq : bucketAppend st1.cache pt r.email =
              bucketAppend st2.cache pt r.email := by rw [hc]
          by_cases h1 : (st1.counter + 1) % d1 = 0 <;>
            by_cases h2 : (st2.counter + 1) % d2 = 0
          · simp only [buildLoop, hrf, hinc, hinc2, hres, Bool.false_eq_true,
              if_false, if_true, h1, h2, if_pos]
            rw [dumpload_eq _ hnd2, dumpload_eq _ (hceq ▸ hnd2)]
            exact ih d1 d2 _ _ hceq (by simp [hl]) hnd2
          · simp only [buildLoop, hrf, hinc, hinc2, hres, Bool.false_eq_true,
              if_false, if_true, h1, h2, if_pos, if_neg]
            rw [dumpload_eq _ hnd2]
            exact ih d1 d2 _ _ hceq (by simp [hl]) hnd2
          · simp only [buildLoop, hrf, hinc, hinc2, hres, Bool.false_eq_true,
              if_false, if_true, h1, h2, if_pos, if_neg]
            rw [dumpload_eq _ (hceq ▸ hnd2)]
            exact ih d1 d2 _ _ hceq (by simp [hl]) hnd2
          · simp only [buildLoop, hrf, hinc, hinc2, hres, Bool.false_eq_true,
              if_false, if_true, h1, h2, if_neg]
            exact ih d1 d2 _ _ hceq (by simp [hl]) hnd2

/-- C1 counterexample: build at a concrete record stores the full email
address "abc123@example.edu" in the classification bucket, not the bare
identifier "abc123" derived from it. -/
theorem build_stores_full_email_cex :
    (build resolveUG 200 ([] : Cache) [recFirestone]).cache =
      [("undergraduate", ["abc123@example.edu"])]
    ∧ localPart "abc123@example.edu" = "abc123"
    ∧ ¬ (build resolveUG 200 ([] : Cache) [recFirestone]).cache =
        [("undergraduate", [localPart "abc123@example.edu"])] := by
  decide

/-- C1 amended: during IDCache.build, the string appended to the
classification bucket of an uncached included record is the record's full
email address; the bare identifier (portion before the domain separator) is
only the key passed to the resolver.  Hence every string in the built cache is
either a pre-existing cache entry or the full email of some input record, on a
fault-free run every included record's full email ends up cached, and one
uncached included record extends the cache by exactly
`bucketAppend c0 pt r.email`. -/
theorem build_appends_full_email {ε : Type} (resolve : String → Except ε String)
    (d : Nat) (c0 : Cache) (rs : List Reservation) (h0 : nodupKeys c0) :
    (∀ x, includes (build resolve d c0 rs).cache x = true →
      includes c0 x = true ∨ ∃ r ∈ rs, x = r.email)
    ∧ ((build resolve d c0 rs).fault = none →
        ∀ r ∈ rs, report_filter r = true →
        includes (build resolve d c0 rs).cache r.email = true)
    ∧ (∀ r pt, report_filter r = true → includes c0 r.email = false →
        resolve (localPart r.email) = Except.ok pt →
        (build resolve 200 c0 [r]).cache = bucketAppend c0 pt r.email) := by
  refine ⟨?_, ?_, ?_⟩
  · intro x hx
    have h := buildLoop_source resolve d rs
      { cache := c0, counter := 0, dumps := [], lookups := 0 } h0 x
      (by simpa [build] using hx)
    simpa using h
  · intro hf r hr hrf
    have hfault : (buildLoop resolve d rs
        { cache := c0, counter := 0, dumps := [], lookups := 0 }).2 = none := by
      simpa [build] using hf
    have h := buildLoop_complete resolve d rs
      { cache := c0, counter := 0, dumps := [], lookups := 0 } h0 hfault r hr hrf
    simpa [build] using h
  · intro r pt hrf hinc hres
    simp [build, buildLoop, hrf, hinc, hres]

/-- Witness for the amended C1: one concrete uncached included record extends
the cache by a bucket holding the full email. -/
theorem build_appends_full_email_witness :
    (build resolveUG 200 ([] : Cache) [recStokes]).cache =
      bucketAppend [] "undergraduate" recStokes.email :=
  (build_appends_full_email resolveUG 200 [] [recStokes] (by decide)).2.2
    recStokes "undergraduate" (by decide) (by decide) (by rfl)

/-- C2: on every run of IDCache.build, the last persisted snapshot is exactly
the in-memory cache state at termination, faulting or not (the except handler
dumps before re-raising; the normal path dumps at the end); a returned fault
is exactly an error produced by the resolver (never swallowed, never
invented), and a resolver that never faults yields a fault-free build. -/
theorem build_persists_then_reraises {ε : Type}
    (resolve : String → Except ε String) (d : Nat) (c0 : Cache)
    (rs : List Reservation) :
    (build resolve d c0 rs).dumps.getLast? = some (build resolve d c0 rs).cache
    ∧ (∀ e, (build resolve d c0 rs).fault = some e →
        ∃ id, resolve id = Except.error e)
    ∧ ((∀ id, ∃ pt, resolve id = Except.ok pt) →
        (build resolve d c0 rs).fault = none) := by
  refine ⟨?_, ?_, ?_⟩
  · simp only [build]
    rw [List.getLast?_concat]
  · intro e he
    exact buildLoop_fault_source resolve d rs _ e (by simpa [build] using he)
  · intro h
    simpa [build] using buildLoop_fault_none resolve d rs h _
/-- Witness for C2: a resolver that always raises; the build's fault is that
same error, and the final dump matches the final cache. -/
theorem build_persists_then_reraises_witness :
    (build resolveBoom 200 ([] : Cache) [recFirestone]).dumps.getLast? =
      some (build resolveBoom 200 ([] : Cache) [recFirestone]).cache
    ∧ (∃ id, resolveBoom id = Except.error "boom") :=
  ⟨(build_persists_then_reraises resolveBoom 200 [] [recFirestone]).1,
   (build_persists_then_reraises resolveBoom 200 [] [recFirestone]).2.1 "boom"
     (by rfl)⟩

/-- C6: a second build over the same records, starting from the cache a
fault-free first build left behind, performs zero directory lookups (whatever
its resolver or checkpoint interval), and leaves the cache unchanged: the
includes check is already true for every identifier encountered. -/
theorem build_idempotent_no_lookups {ε ε2 : Type}
    (resolve : String → Except ε String) (resolve2 : String → Except ε2 String)
    (d1 d2 : Nat) (c0 : Cache) (rs : List Reservation) (h0 : nodupKeys c0)
    (h1 : (build resolve d1 c0 rs).fault = none) :
    (build resolve2 d2 (build resolve d1 c0 rs).cache rs).lookups = 0
    ∧ (build resolve2 d2 (build resolve d1 c0 rs).cache rs).cache =
        (build resolve d1 c0 rs).cache := by
  have hfault : (buildLoop resolve d1 rs
      { cache := c0, counter := 0, dumps := [], lookups := 0 }).2 = none := by
    simpa [build] using h1
  have hall := buildLoop_complete resolve d1 rs
    { cache := c0, counter := 0, dumps := [], lookups := 0 } h0 hfault
  have hrun := buildLoop_no_lookup resolve2 d2 rs
    { cache := (build resolve d1 c0 rs).cache, counter := 0, dumps := [],
      lookups := 0 }
    (fun r hr hrf => by simpa [build] using hall r hr hrf)
  simp only [build] at hrun
  refine ⟨?_, ?_⟩ <;> simp [build, hrun]

/-- Witness for C6: after a fault-free first build over two records, a second
build (even with an always-raising resolver) performs zero lookups. -/
theorem build_idempotent_no_lookups_witness :
    (build resolveBoom 200 (build resolveUG 200 ([] : Cache)
      [recFirestone, recStokes]).cache [recFirestone, recStokes]).lookups = 0 :=
  (build_idempotent_no_lookups resolveUG resolveBoom 200 200 []
    [recFirestone, recStokes] (by decide) (by decide)).1

/-- C7: for the same records and the same resolver responses, builds with any
two checkpoint intervals (e.g. 1 and 1,000,000) produce identical final cache
mappings, identical lookup counts and identical fault outcomes: the periodic
dump-clear-reload step never alters the cache contents. -/
theorem build_checkpoint_equiv {ε : Type} (resolve : String → Except ε String)
    (d1 d2 : Nat) (c0 : Cache) (rs : List Reservation) (h0 : nodupKeys c0) :
    (build resolve d1 c0 rs).cache = (build resolve d2 c0 rs).cache
    ∧ (build resolve d1 c0 rs).lookups = (build resolve d2 c0 rs).lookups
    ∧ (build resolve d1 c0 rs).fault = (build resolve d2 c0 rs).fault := by
  have h := buildLoop_d_indep resolve rs d1 d2
    { cache := c0, counter := 0, dumps := [], lookups := 0 }
    { cache := c0, counter := 0, dumps := [], lookups := 0 } rfl rfl h0
  simpa [build] using h

/-- Witness for C7 at the intervals 1 and 1,000,000 over two records. -/
theorem build_checkpoint_equiv_witness :
    (build resolveUG 1 ([] : Cache) [recFirestone, recStokes]).cache =
      (build resolveUG 1000000 ([] : Cache) [recFirestone, recStokes]).cache :=
  (build_checkpoint_equiv resolveUG 1 1000000 [] [recFirestone, recStokes]
    (by decide)).1

/-! ### Helper lemmas: the day-renaming loop -/

theorem dict_pop_cases {V : Type} (d : List (DayKey × V)) (k : DayKey) :
    (dict_pop d k = none ∧ k ∉ d.map Prod.fst)
    ∨ (∃ kv, d.find? (fun kv2 => decide (kv2.1 = k)) = some kv ∧
        dict_pop d k =
          some (kv.2, d.filter (fun kv2 => decide (¬ kv2.1 = k))) ∧
        k ∈ d.map Prod.fst) := by
  cases hf : d.find? (fun kv2 => decide (kv2.1 = k)) with
  | none =>
    left
    refine ⟨by simp [dict_pop, hf], ?_⟩
    intro hmem
    obtain ⟨kv, hkv, rfl⟩ := List.mem_map.mp hmem
    have := List.find?_eq_none.mp hf kv hkv
    simp at this
  | some kv =>
    right
    refine ⟨kv, rfl, by simp [dict_pop, hf], ?_⟩
    have h1 := List.find?_some hf
    have h2 := List.mem_of_find?_eq_some hf
    simp only [decide_eq_true_eq] at h1
    exact List.mem_map.mpr ⟨kv, h2, h1⟩

theorem mem_keys_filter_ne {V : Type} (d : List (DayKey × V)) (k x : DayKey) :
    x ∈ (d.filter (fun kv => decide (¬ kv.1 = k))).map Prod.fst ↔
      (x ∈ d.map Prod.fst ∧ x ≠ k) := by
  simp only [List.mem_map, List.mem_filter, decide_eq_true_eq]
  constructor
  · rintro ⟨kv, ⟨hm, hne⟩, rfl⟩
    exact ⟨⟨kv, hm, rfl⟩, hne⟩
  · rintro ⟨⟨kv, hm, rfl⟩, hne⟩
    exact ⟨kv, ⟨hm, hne⟩, rfl⟩

theorem keys_dict_set {V : Type} (d : List (DayKey × V)) (k : DayKey) (v : V) :
    (dict_set d k v).map Prod.fst =
      if d.any (fun kv => decide (kv.1 = k)) = true then d.map Prod.fst
      else d.map Prod.fst ++ [k] := by
  unfold dict_set
  by_cases h : d.any (fun kv => decide (kv.1 = k)) = true
  · rw [if_pos h, if_pos h, List.map_map]
    apply List.map_congr_left
    intro kv _
    by_cases hk : kv.1 = k <;> simp [hk]
  · rw [if_neg h, if_neg h]
    simp

theorem inl_mem_keys_dict_set {V : Type} (d : List (DayKey × V)) (s : String)
    (v : V) (j : Nat) :
    Sum.inl j ∈ (dict_set d (Sum.inr s) v).map Prod.fst ↔
      Sum.inl j ∈ d.map Prod.fst := by
  rw [keys_dict_set]
  split <;> simp

theorem rename_go_isSome {V : Type} (is : List Nat) :
    ∀ d : List (DayKey × V), is.Nodup →
    ((rename_go is d).isSome = true ↔
      ∀ i ∈ is, Sum.inl i ∈ d.map Prod.fst) := by
  induction is with
  | nil =>
    intro d _
    simp [rename_go]
  | cons i is' ih =>
    intro d hnd
    rcases dict_pop_cases d (Sum.inl i) with ⟨hpop, hmem⟩ |
      ⟨kv, _, hpop, hmem⟩
    · have habs : ¬ ∀ i' ∈ i :: is', Sum.inl i' ∈ d.map Prod.fst :=
        fun h => hmem (h i (by simp))
      have hre : rename_go (i :: is') d = none := by
        simp [rename_go, rename_step, hpop]
      rw [hre]
      simp only [Option.isSome_none, Bool.false_eq_true, false_iff]
      exact habs
    · have hstep : rename_step d i =
          some (dict_set (d.filter (fun kv2 => decide (¬ kv2.1 = Sum.inl i)))
            (Sum.inr (days.getD i "")) kv.2) := by
        simp [rename_step, hpop]
      simp only [rename_go, hstep]
      rw [ih _ (List.nodup_cons.mp hnd).2]
      constructor
      · intro h j hj
        rcases List.mem_cons.mp hj with rfl | hj'
        · exact hmem
        · have hthis := h j hj'
          rw [inl_mem_keys_dict_set] at hthis
          exact ((mem_keys_filter_ne d (Sum.inl i) (Sum.inl j)).mp hthis).1
      · intro h j hj'
        rw [inl_mem_keys_dict_set]
        apply (mem_keys_filter_ne d (Sum.inl i) (Sum.inl j)).mpr
        refine ⟨h j (List.mem_cons_of_mem _ hj'), ?_⟩
        intro heq
        have hji : j = i := by simpa using heq
        exact (List.nodup_cons.mp hnd).1 (hji ▸ hj')

theorem rename_go_ok {V : Type} (is : List Nat) :
    ∀ (dI dN : List (DayKey × V)), is.Nodup →
    (∀ a ∈ is, ∀ b ∈ is, days.getD a "" = days.getD b "" → a = b) →
    (∀ k ∈ dI.map Prod.fst, ∃ i ∈ is, k = Sum.inl i) →
    (∀ i ∈ is, Sum.inl i ∈ dI.map Prod.fst) →
    (∀ k ∈ dN.map Prod.fst, ∃ s, k = Sum.inr s) →
    (∀ i ∈ is, Sum.inr (days.getD i "") ∉ dN.map Prod.fst) →
    ∃ out, rename_go is (dI ++ dN) = some out ∧
      out.map Prod.fst =
        dN.map Prod.fst ++ is.map (fun i => Sum.inr (days.getD i "")) := by
  induction is with
  | nil =>
    intro dI dN _ _ hIsub _ _ _
    have hnil : dI = [] := by
      cases dI with
      | nil => rfl
      | cons kv rest =>
        obtain ⟨i, hi, _⟩ := hIsub kv.1 (by simp)
        exact absurd hi (List.not_mem_nil i)
    subst hnil
    exact ⟨dN, by simp [rename_go], by simp⟩
  | cons i is' ih =>
    intro dI dN hnd hinj hIsub hIall hNinr hNfresh
    have hmem : Sum.inl i ∈ (dI ++ dN).map Prod.fst := by
      rw [List.map_append, List.mem_append]
      exact Or.inl (hIall i (by simp))
    rcases dict_pop_cases (dI ++ dN) (Sum.inl i) with ⟨_, hno⟩ |
      ⟨kv, _, hpop, _⟩
    · exact absurd hmem hno
    have hfilter : (dI ++ dN).filter (fun kv2 => decide (¬ kv2.1 = Sum.inl i)) =
        dI.filter (fun kv2 => decide (¬ kv2.1 = Sum.inl i)) ++ dN := by
      rw [List.filter_append]
      congr 1
      apply List.filter_eq_self.mpr
      intro kv2 hkv2
      obtain ⟨s, hs⟩ := hNinr kv2.1 (List.mem_map.mpr ⟨kv2, hkv2, rfl⟩)
      simp [hs]
    have hset : dict_set
        (dI.filter (fun kv2 => decide (¬ kv2.1 = Sum.inl i)) ++ dN)
        (Sum.inr (days.getD i "")) kv.2 =
        dI.filter (fun kv2 => decide (¬ kv2.1 = Sum.inl i)) ++
          (dN ++ [(Sum.inr (days.getD i ""), kv.2)]) := by
      unfold dict_set
      rw [if_neg, List.append_assoc]
      simp only [List.any_eq_true, decide_eq_true_eq, not_exists]
      rintro kv2 hand
      rcases List.mem_append.mp hand.1 with h | h
      · have hkv2I : kv2 ∈ dI := List.mem_of_mem_filter h
        obtain ⟨i'', _, hii⟩ := hIsub kv2.1 (List.mem_map.mpr ⟨kv2, hkv2I, rfl⟩)
        rw [hii] at hand
        exact absurd hand.2 (by simp)
      · exact hNfresh i (by simp)
          (hand.2 ▸ List.mem_map.mpr ⟨kv2, h, rfl⟩)
    have hsub : ∀ k ∈ (dI.filter
        (fun kv2 => decide (¬ kv2.1 = Sum.inl i))).map Prod.fst,
        ∃ j ∈ is', k = Sum.inl j := by
      intro k hk
      have hkd := (mem_keys_filter_ne dI (Sum.inl i) k).mp hk
      obtain ⟨i'', hi'', hky⟩ := hIsub k hkd.1
      rcases List.mem_cons.mp hi'' with rfl | h
      · exact absurd hky hkd.2
      · exact ⟨i'', h, hky⟩
    have hall : ∀ j ∈ is', Sum.inl j ∈ (dI.filter
        (fun kv2 => decide (¬ kv2.1 = Sum.inl i))).map Prod.fst := by
      intro j hj
      apply (mem_keys_filter_ne dI (Sum.inl i) (Sum.inl j)).mpr
      refine ⟨hIall j (List.mem_cons_of_mem _ hj), ?_⟩
      intro heq
      have hji : j = i := by simpa using heq
      exact (List.nodup_cons.mp hnd).1 (hji ▸ hj)
    have hinr : ∀ k ∈ (dN ++
        [(Sum.inr (days.getD i ""), kv.2)]).map Prod.fst,
        ∃ s, k = Sum.inr s := by
      intro k hk
      rw [List.map_append, List.mem_append] at hk
      rcases hk with h | h
      · exact hNinr k h
      · simp only [List.map_cons, List.map_nil, List.mem_singleton] at h
        exact ⟨days.getD i "", h⟩
    have hfresh : ∀ i' ∈ is', Sum.inr (days.getD i' "") ∉ (dN ++
        [(Sum.inr (days.getD i ""), kv.2)]).map Prod.fst := by
      intro i' hi' hk
      rw [List.map_append, List.mem_append] at hk
      rcases hk with h | h
      · exact hNfresh i' (List.mem_cons_of_mem _ hi') h
      · simp only [List.map_cons, List.map_nil, List.mem_singleton,
          Sum.inr.injEq] at h
        have hii : i' = i := hinj i' (List.mem_cons_of_mem _ hi') i (by simp) h
        exact (List.nodup_cons.mp hnd).1 (hii ▸ hi')
    obtain ⟨out, hout, hkeys⟩ := ih
      (dI.filter (fun kv2 => decide (¬ kv2.1 = Sum.inl i)))
      (dN ++ [(Sum.inr (days.getD i ""), kv.2)])
      (List.nodup_cons.mp hnd).2
      (fun a ha b hb =>
        hinj a (List.mem_cons_of_mem _ ha) b (List.mem_cons_of_mem _ hb))
      hsub hall hinr hfresh
    refine ⟨out, ?_, ?_⟩
    · simp only [rename_go, rename_step, hpop, hfilter, hset]
      exact hout
    · rw [hkeys]
      simp [List.map_append, List.append_assoc]

/-- C10: the day-renaming step of DayTimeReporter.run succeeds exactly when
every weekday index 0..6 is a key of the aggregated data (the unconditional
`pop(i)` raises KeyError — modelled as `none` — for the first absent index),
and when all seven are present the final day keys are exactly Monday through
Sunday in that order.  The hypothesis records that the aggregated top-level
keys are weekday indices produced by `date.weekday()`, i.e. ints in 0..6. -/
theorem rename_days_spec {V : Type} (d : List (DayKey × V))
    (hk : ∀ k ∈ d.map Prod.fst, ∃ i, i < 7 ∧ k = Sum.inl i) :
    ((rename_days d).isSome = true ↔
      ∀ i, i < 7 → Sum.inl i ∈ d.map Prod.fst)
    ∧ ((∀ i, i < 7 → Sum.inl i ∈ d.map Prod.fst) →
        ∃ out, rename_days d = some out ∧
          out.map Prod.fst = days.map Sum.inr) := by
  constructor
  · rw [rename_days, rename_go_isSome (List.range 7) d (List.nodup_range 7)]
    constructor
    · intro h i hi
      exact h i (List.mem_range.mpr hi)
    · intro h i hi
      exact h i (List.mem_range.mp hi)
  · intro hall
    obtain ⟨out, hout, hkeys⟩ := rename_go_ok (List.range 7) d []
      (List.nodup_range 7)
      (by decide)
      (fun k hk' => by
        obtain ⟨i, hi, rfl⟩ := hk k hk'
        exact ⟨i, List.mem_range.mpr hi, rfl⟩)
      (fun i hi => hall i (List.mem_range.mp hi))
      (by simp)
      (by simp)
    refine ⟨out, by simpa [rename_days] using hout, ?_⟩
    rw [hkeys]
    simp only [List.map_nil, List.nil_append]
    decide

/-- Witness for C10: a concrete aggregated dict with all seven weekday
indices renames successfully. -/
theorem rename_days_spec_witness :
    (rename_days [(Sum.inl 3, 30), (Sum.inl 0, 10), (Sum.inl 1, 11),
      (Sum.inl 2, 12), (Sum.inl 6, 16), (Sum.inl 4, 14),
      (Sum.inl 5, 15)]).isSome = true :=
  ((rename_days_spec [(Sum.inl 3, 30), (Sum.inl 0, 10), (Sum.inl 1, 11),
      (Sum.inl 2, 12), (Sum.inl 6, 16), (Sum.inl 4, 14), (Sum.inl 5, 15)]
    (by decide)).1).mpr (by decide)
